import Mathlib

/-!
# LearnShare: the ephemeral credential and rate-limit cache

A shallow embedding of `biz/dal/redis/user.go` (the cache facades over the
shared key/value client `RDB`) and of the workflows of `biz/service/user.go`
that call them, followed by the properties proved about them.

Conventions of the embedding.
* A Go `string` is a Lean `String`.
* A Go `error` result is an `Option`: `none` is `nil`.  An error coming from
  the key/value client is kept as its `Error()` text, because that text is
  what the code itself compares (`err.Error() == "redis: nil"`).
* A Go function with several results returns a tuple, in the same order.
* The remote store is an explicit state `Store` that every operation takes;
  an operation that writes returns the new store next to its Go result.
* `time.Duration` and instants are integers counting nanoseconds.
-/

set_option autoImplicit false

/-! ## `pkg/errno` -/

namespace errno

/-- First constant of the block `50000 + iota`. -/
def InternalServiceErrorCode : Int := 50000 + 0

/-- Second constant of the block `50000 + iota`. -/
def InternalDatabaseErrorCode : Int := 50000 + 1

/-- Third constant of the block `50000 + iota`. -/
def InternalRedisErrorCode : Int := 50000 + 2

/-- Second constant of the block `60000 + iota`. -/
def RedisKeyNotExist : Int := 60000 + 1

/-- Sixth constant of the block `1000 + iota`. -/
def ServiceInvalidCode : Int := 1000 + 5

/-- Modelled from the spec: the error value the cache layer surfaces to the
calling workflow.  The type `errno.ErrNo` is declared outside the files at
hand; it is kept as the pair of arguments `errno.NewErrNo` is called with. -/
structure ErrNo where
  ErrorCode : Int
  ErrorMsg : String
  deriving DecidableEq, Repr

/-- Modelled from the spec: the constructor `errno.NewErrNo(code, msg)`, which
is declared outside the files at hand; it records its two arguments. -/
def NewErrNo (code : Int) (msg : String) : ErrNo :=
  { ErrorCode := code, ErrorMsg := msg }

end errno

/-! ## Library: `time`, `strings`, `fmt` -/

namespace time

/-- A `time.Duration`: a count of nanoseconds. -/
abbrev Duration := Int

def Nanosecond : Duration := 1
def Microsecond : Duration := 1000 * Nanosecond
def Millisecond : Duration := 1000 * Microsecond
def Second : Duration := 1000 * Millisecond
def Minute : Duration := 60 * Second
def Hour : Duration := 60 * Minute

/-- The value of `t.Unix()` for an instant given in nanoseconds since the
epoch: whole seconds, rounded down. -/
def Unix (instant : Int) : Int := instant / 1000000000

end time

namespace strings

/-- The pieces of a character list between the occurrences of `sep`. -/
def splitChars (sep : Char) : List Char → List (List Char)
  | [] => [[]]
  | c :: cs =>
    if c = sep then [] :: splitChars sep cs
    else
      match splitChars sep cs with
      | [] => [[c]]
      | p :: ps => (c :: p) :: ps

/-- The value of `strings.Split(s, sep)` for a separator of one byte (the only
call passes `"_"`): all the substrings of `s` between the occurrences of
`sep`, so one more piece than there are occurrences. -/
def Split (s : String) (sep : Char) : List String :=
  (splitChars sep s.data).map String.mk

end strings

namespace unicode

/-- The value of `unicode.IsSpace(r)`: the runes with the White Space property
of Unicode, which are U+0009 to U+000D, U+0020, U+0085, U+00A0, U+1680,
U+2000 to U+200A, U+2028, U+2029, U+202F, U+205F and U+3000. -/
def IsSpace (r : Char) : Bool :=
  decide ((0x09 ≤ r.toNat ∧ r.toNat ≤ 0x0d) ∨ r.toNat = 0x20 ∨ r.toNat = 0x85 ∨
    r.toNat = 0xa0 ∨ r.toNat = 0x1680 ∨ (0x2000 ≤ r.toNat ∧ r.toNat ≤ 0x200a) ∨
    r.toNat = 0x2028 ∨ r.toNat = 0x2029 ∨ r.toNat = 0x202f ∨ r.toNat = 0x205f ∨
    r.toNat = 0x3000)

/-- The simple case folding of the Unicode tables, as far as
`strings.EqualFold` consults it: whether two different runes, the second one
larger and outside ASCII, are equivalent under simple case folding (the walk
of `unicode.SimpleFold` over the orbit of the first reaches the second).  The
tables are a parameter of the embedding. -/
abbrev FoldTable := Char → Char → Bool

end unicode

namespace strings

/-- The fields of a character list: `cur` holds, last rune first, the runes of
the field being read. -/
def fieldsChars : List Char → List Char → List (List Char)
  | [], cur => if cur = [] then [] else [cur.reverse]
  | c :: cs, cur =>
    if unicode.IsSpace c then
      if cur = [] then fieldsChars cs [] else cur.reverse :: fieldsChars cs []
    else fieldsChars cs (c :: cur)

/-- The value of `strings.Fields(s)`: the pieces of `s` between runs of one
or more white space runes (`unicode.IsSpace`); no piece when `s` holds
nothing but white space. -/
def Fields (s : String) : List String :=
  (fieldsChars s.data []).map String.mk

/-- One step of `strings.EqualFold`: do two runes match.  Equal runes match;
otherwise, the smaller one first, two ASCII runes match when they are an upper
case letter and its lower case form, and a pair whose larger rune is outside
ASCII matches when the folding tables say so. -/
def equalFoldRune (fold : unicode.FoldTable) (sr tr : Char) : Bool :=
  if tr = sr then true
  else
    let lo := if tr.toNat < sr.toNat then tr else sr
    let hi := if tr.toNat < sr.toNat then sr else tr
    if hi.toNat < 0x80 then
      decide ('A'.toNat ≤ lo.toNat ∧ lo.toNat ≤ 'Z'.toNat ∧
        hi.toNat = lo.toNat + 'a'.toNat - 'A'.toNat)
    else fold lo hi

/-- The runes of two strings match one by one, and both end together. -/
def equalFoldChars (fold : unicode.FoldTable) : List Char → List Char → Bool
  | [], [] => true
  | sr :: s, tr :: t => equalFoldRune fold sr tr && equalFoldChars fold s t
  | _, _ => false

/-- The value of `strings.EqualFold(s, t)`: are `s` and `t` equal under simple
Unicode case folding. -/
def EqualFold (fold : unicode.FoldTable) (s t : String) : Bool :=
  equalFoldChars fold s.data t.data

end strings

/-! ## The remote key/value store and its client `RDB` -/

namespace redis

open errno

/-- One stored entry: the value and the instant at which it expires
(`none`: it never does). -/
structure Entry where
  value : String
  expireAt : Option Int

/-- The state the cache operations run against: the clock (nanoseconds since
the epoch), the entries by key, and whether the store can be reached
(`fault = some e`: every call of the client fails with the error text `e`). -/
structure Store where
  clock : Int
  data : String → Option Entry
  fault : Option String

/-- An entry is live as long as the clock is not past its expiry instant (the
store takes a key for expired once the time is greater than its expiry). -/
def Entry.live (now : Int) (e : Entry) : Bool :=
  match e.expireAt with
  | none => true
  | some t => decide (now ≤ t)

/-- The live entry under a key, if any: an expired entry is not seen. -/
def Store.lookup (s : Store) (key : String) : Option Entry :=
  match s.data key with
  | none => none
  | some e => if e.live s.clock then some e else none

/-- The store with nothing in it, reachable, its clock at `now`. -/
def Store.empty (now : Int) : Store :=
  { clock := now, data := fun _ => none, fault := none }

/-- Time passing: the clock moves forward by `d` nanoseconds. -/
def Store.advance (s : Store) (d : Nat) : Store :=
  { s with clock := s.clock + d }

/-- The store becoming unreachable (or reachable again). -/
def Store.withFault (s : Store) (fault : Option String) : Store :=
  { s with fault := fault }

namespace RDB

/-- The text of the client's error `redis.Nil`, its answer for an absent key. -/
def Nil : String := "redis: nil"

/-- The client's marker for "keep the entry's present expiry". -/
def KeepTTL : time.Duration := -1

/-- The result `RDB.Get(ctx, key).Result()`: the value of a live entry, the
error `redis.Nil` for an absent key, the fault when the store cannot be
reached. -/
def Get (s : Store) (key : String) : String × Option String :=
  match s.fault with
  | some e => ("", some e)
  | none =>
    match s.lookup key with
    | some e => (e.value, none)
    | none => ("", some Nil)

/-- The expiry instant a `Set` with the given expiration leaves on the key:
a positive expiration counts from now, `KeepTTL` keeps what a live entry has,
anything else means no expiry. -/
def expiry (s : Store) (key : String) (expiration : time.Duration) : Option Int :=
  if 0 < expiration then some (s.clock + expiration)
  else if expiration = KeepTTL then
    match s.lookup key with
    | some e => e.expireAt
    | none => none
  else none

/-- The result `RDB.Set(ctx, key, value, expiration).Err()` and the store it
leaves: the entry under `key` is replaced whole. -/
def Set (s : Store) (key value : String) (expiration : time.Duration) :
    Option String × Store :=
  match s.fault with
  | some e => (some e, s)
  | none =>
    let entry : Entry := { value := value, expireAt := expiry s key expiration }
    (none, { s with data := fun k => if k = key then some entry else s.data k })

/-- The result `RDB.Del(ctx, key).Err()` and the store it leaves. -/
def Del (s : Store) (key : String) : Option String × Store :=
  match s.fault with
  | some e => (some e, s)
  | none => (none, { s with data := fun k => if k = key then none else s.data k })

end RDB

/-! ## `biz/dal/redis/user.go` -/

/-- The Go function `GetCodeCache`: the pending code of a recipient. -/
def GetCodeCache (s : Store) (key : String) : String × Option ErrNo :=
  match RDB.Get s key with
  | (_, some _) => ("", some (NewErrNo InternalRedisErrorCode "获取验证码缓存失败"))
  | (value, none) =>
    let parts := strings.Split value '_'
    if parts.length ≠ 2 then
      ("", some (NewErrNo InternalRedisErrorCode "验证码格式错误"))
    else
      (parts.headD "", none)

/-- The Go function `PutCodeToCache`: issue a code for a recipient. -/
def PutCodeToCache (s : Store) (key code : String) : Option ErrNo × Store :=
  let timeNow := time.Unix s.clock
  let value := code ++ "_" ++ toString timeNow
  let expiration := 10 * time.Minute
  match RDB.Set s key value expiration with
  | (some _, s') => (some (NewErrNo InternalRedisErrorCode "写入验证码缓存失败"), s')
  | (none, s') => (none, s')

/-- The Go function `DeleteCodeCache`: drop the pending code of a recipient. -/
def DeleteCodeCache (s : Store) (key : String) : Option ErrNo × Store :=
  match RDB.Del s key with
  | (some err, s') =>
    (some (NewErrNo InternalRedisErrorCode ("删除验证码缓存失败: " ++ err)), s')
  | (none, s') => (none, s')

/-- The Go function `SetBlacklistToken`: revoke a token. -/
def SetBlacklistToken (s : Store) (token : String) : Option ErrNo × Store :=
  match RDB.Set s token "blacklisted" (time.Hour * 72) with
  | (some err, s') =>
    (some (NewErrNo InternalRedisErrorCode ("设置令牌黑名单失败: " ++ err)), s')
  | (none, s') => (none, s')

/-- The Go function `IsBlacklistToken`: is the token revoked. -/
def IsBlacklistToken (s : Store) (token : String) : Bool × Option ErrNo :=
  match RDB.Get s token with
  | (_, some err) =>
    if err = "redis: nil" then (false, none)
    else (false, some (NewErrNo InternalRedisErrorCode ("获取令牌黑名单状态失败: " ++ err)))
  | (result, none) =>
    if result = "blacklisted" then (true, none) else (false, none)

/-- The serialised form of a profile record.  The record type `db.User` is
declared outside the files at hand, so it is the type parameter `User`, and
what `json.Marshal` and `json.Unmarshal` do on it is a parameter too: these
two functions (an error is kept as its text). -/
structure Json (User : Type) where
  Marshal : Option User → Except String String
  Unmarshal : String → Except String User

/-- The Go function `SetUserInfoCache`: store the serialised record of a user
under the key `user:<userId>`. -/
def SetUserInfoCache {User : Type} (json : Json User) (s : Store) (userId : String)
    (data : Option User) (expiration : time.Duration) : Option ErrNo × Store :=
  match json.Marshal data with
  | .error err => (some (NewErrNo InternalRedisErrorCode ("序列化用户信息失败: " ++ err)), s)
  | .ok b =>
    let key := "user:" ++ userId
    match RDB.Set s key b expiration with
    | (some err, s') =>
      (some (NewErrNo InternalRedisErrorCode ("设置用户信息缓存失败: " ++ err)), s')
    | (none, s') => (none, s')

/-- The Go function `GetUserInfoCache`: the cached record of a user; a miss is
`(nil, nil)`. -/
def GetUserInfoCache {User : Type} (json : Json User) (s : Store) (userId : String) :
    Option User × Option ErrNo :=
  let key := "user:" ++ userId
  match RDB.Get s key with
  | (_, some err) =>
    if err = "redis: nil" then (none, none)
    else (none, some (NewErrNo InternalRedisErrorCode ("获取用户信息缓存失败: " ++ err)))
  | (val, none) =>
    match json.Unmarshal val with
    | .error err => (none, some (NewErrNo InternalRedisErrorCode ("解析用户信息缓存失败: " ++ err)))
    | .ok user => (some user, none)

/-- The Go function `SetEmailRateLimit`: mark a source as having just sent. -/
def SetEmailRateLimit (s : Store) (ip : String) : Option ErrNo × Store :=
  let key := "email_rate_limit:" ++ ip
  match RDB.Set s key "1" (1 * time.Minute) with
  | (some err, s') =>
    (some (NewErrNo InternalRedisErrorCode ("设置邮件频率限制失败: " ++ err)), s')
  | (none, s') => (none, s')

/-- Modelled from the spec: `IsKeyExist` is declared outside the files at
hand.  The spec's words for the check built on it are "returns whether the
marker currently exists": the key has a live entry in the store. -/
def IsKeyExist (s : Store) (key : String) : Bool :=
  (s.lookup key).isSome

/-- The Go function `CheckEmailRateLimit`: is the source inside its window. -/
def CheckEmailRateLimit (s : Store) (ip : String) : Bool :=
  let key := "email_rate_limit:" ++ ip
  IsKeyExist s key

/-! ### Histories of cache operations -/

/-- One step of a history: a call of one of the writing cache operations, or
time passing.  The reading operations leave the store as it is. -/
inductive Op (User : Type) where
  | PutCodeToCache (key code : String)
  | DeleteCodeCache (key : String)
  | SetBlacklistToken (token : String)
  | SetUserInfoCache (userId : String) (data : Option User) (expiration : time.Duration)
  | SetEmailRateLimit (ip : String)
  | advance (d : Nat)

/-- The store after one step. -/
def Op.apply {User : Type} (json : Json User) (s : Store) : Op User → Store
  | .PutCodeToCache key code => (redis.PutCodeToCache s key code).2
  | .DeleteCodeCache key => (redis.DeleteCodeCache s key).2
  | .SetBlacklistToken token => (redis.SetBlacklistToken s token).2
  | .SetUserInfoCache userId data expiration =>
    (redis.SetUserInfoCache json s userId data expiration).2
  | .SetEmailRateLimit ip => (redis.SetEmailRateLimit s ip).2
  | .advance d => s.advance d

/-- The store after a history, oldest step first. -/
def run {User : Type} (json : Json User) (s : Store) (ops : List (Op User)) : Store :=
  ops.foldl (Op.apply json) s

end redis

/-! ## `biz/service/user.go` -/

namespace service

open errno

/-- The request of `VerifyEmail`. -/
structure VerifyEmailReq where
  Email : String
  Code : String

/-- The request of `UpdateEmail`. -/
structure UpdateEmailReq where
  NewEmail : String
  Code : String

/-- The request of `ResetPassword`. -/
structure ResetPasswordReq where
  Email : String
  Code : String
  NewPassword : String

/-- The external collaborators of the workflows (the authoritative user store
`db`, `utils.EncryptPassword`, the request context), all declared outside the
files at hand and taken as parameters.  Each is given by the result it
returns; none of them is handed the key/value store. -/
structure Collab where
  GetUidFormContext : Int
  EncryptPassword : String → Except ErrNo String
  GetUserByEmail : String → Except ErrNo Int
  UpdateUserStatues : Int → String → Option ErrNo
  UpdateUserEmail : Int → String → Option ErrNo
  UpdateUserPassword : Int → String → Option ErrNo

/-- The Go method `UserService.VerifyEmail`, with the store it leaves. -/
def VerifyEmail (env : Collab) (s : redis.Store) (req : VerifyEmailReq) :
    Option ErrNo × redis.Store :=
  let userId := env.GetUidFormContext
  match redis.GetCodeCache s req.Email with
  | (_, some err) => (some err, s)
  | (storeCode, none) =>
    if storeCode ≠ req.Code then
      (some (NewErrNo ServiceInvalidCode "验证码不正确"), s)
    else
      match env.UpdateUserStatues userId "active" with
      | some err => (some err, s)
      | none => (none, s)

/-- The Go method `UserService.UpdateEmail`, with the store it leaves. -/
def UpdateEmail (env : Collab) (s : redis.Store) (req : UpdateEmailReq) :
    Option ErrNo × redis.Store :=
  let userId := env.GetUidFormContext
  match redis.GetCodeCache s req.NewEmail with
  | (_, some err) => (some err, s)
  | (storeCode, none) =>
    if storeCode ≠ req.Code then
      (some (NewErrNo ServiceInvalidCode "验证码不正确"), s)
    else
      match env.UpdateUserEmail userId req.NewEmail with
      | some err => (some err, s)
      | none => (none, s)

/-- The Go method `UserService.ResetPassword`, with the store it leaves. -/
def ResetPassword (env : Collab) (s : redis.Store) (req : ResetPasswordReq) :
    Option ErrNo × redis.Store :=
  match redis.GetCodeCache s req.Email with
  | (_, some err) => (some err, s)
  | (storeCode, none) =>
    if storeCode ≠ req.Code then
      (some (NewErrNo ServiceInvalidCode "验证码不正确"), s)
    else
      match env.EncryptPassword req.NewPassword with
      | .error err => (some err, s)
      | .ok newPasswordHash =>
        match env.GetUserByEmail req.Email with
        | .error err => (some err, s)
        | .ok userID =>
          match env.UpdateUserPassword userID newPasswordHash with
          | some err => (some err, s)
          | none => (none, s)

/-- The Go method `UserService.LoginOut`, with the store it leaves; `auth` is
the value of the request header `Authorization`. -/
def LoginOut (fold : unicode.FoldTable) (s : redis.Store) (auth : String) :
    Option ErrNo × redis.Store :=
  if auth = "" then (none, s)
  else
    match strings.Fields auth with
    | [] => (none, s)
    | part0 :: rest =>
      if strings.EqualFold fold part0 "Bearer" then
        match rest with
        | [] => (none, s)
        | part1 :: _ =>
          match redis.SetBlacklistToken s part1 with
          | (some err, s') => (some err, s')
          | (none, s') => (none, s')
      else
        match redis.SetBlacklistToken s part0 with
        | (some err, s') => (some err, s')
        | (none, s') => (none, s')

end service

/-! ## Auxiliary definitions of the proofs -/

namespace redis

/-- What a reachable store holds under the key of a token, when no value in it
is the revocation mark. -/
def NotMarked (s : Store) (t : String) : Prop :=
  s.fault = none ∧ ∀ e, s.data t = some e → e.value ≠ "blacklisted"

/-- The key of the store an operation of a history writes to or deletes:
the recipient, the token, `user:<userId>`, `email_rate_limit:<ip>`; time
passing touches none. -/
def Op.writtenKey {User : Type} : Op User → Option String
  | .PutCodeToCache key _ => some key
  | .DeleteCodeCache key => some key
  | .SetBlacklistToken token => some token
  | .SetUserInfoCache userId _ _ => some ("user:" ++ userId)
  | .SetEmailRateLimit ip => some ("email_rate_limit:" ++ ip)
  | .advance _ => none

/-- A serialisation of a record that is just a user number, used in the
concrete instances: `null` for the nil pointer, else an object with the one
member `UserID`; reading back takes the digits of an object, and anything
that does not start an object is refused. -/
def sampleJson : Json Nat where
  Marshal := fun d =>
    match d with
    | none => .ok "null"
    | some n => .ok ("\x7b\"UserID\":" ++ toString n ++ "\x7d")
  Unmarshal := fun v =>
    if v = "null" then .ok 0
    else
      match v.data with
      | '\x7b' :: rest =>
        .ok ((rest.filter Char.isDigit).foldl (fun n c => n * 10 + (c.toNat - 48)) 0)
      | c :: _ =>
        .error ("invalid character '" ++ String.singleton c ++
          "' looking for beginning of value")
      | [] => .error "unexpected end of JSON input"

end redis

namespace unicode

/-- The folding table restricted to the orbits that hold an ASCII rune, used
in the concrete instances: the Kelvin sign U+212A folds with `K` and `k`, the
long s U+017F with `S` and `s`, and no other rune outside ASCII folds with an
ASCII one. -/
def asciiFoldTable : FoldTable := fun lo hi =>
  decide (((lo = 'K' ∨ lo = 'k') ∧ hi.toNat = 0x212a) ∨
    ((lo = 'S' ∨ lo = 's') ∧ hi.toNat = 0x017f))

end unicode

namespace strings

/-- The letters of the word `Bearer`. -/
def bearerLetter (c : Char) : Prop :=
  c = 'B' ∨ c = 'e' ∨ c = 'a' ∨ c = 'r'

end strings

namespace service

/-- Collaborators that always succeed, used in the concrete instances: the
request is by user 7, every e-mail belongs to user 7, a password is "hashed"
by a fixed marker in front of it. -/
def sampleCollab : Collab where
  GetUidFormContext := 7
  EncryptPassword := fun password => .ok ("$2a$" ++ password)
  GetUserByEmail := fun _ => .ok 7
  UpdateUserStatues := fun _ _ => none
  UpdateUserEmail := fun _ _ => none
  UpdateUserPassword := fun _ _ => none

end service

/-! ## Library lemmas -/

namespace strings

theorem digitChar_ne_underscore : ∀ m : Nat, m < 10 → Nat.digitChar m ≠ '_' := by
  decide

theorem toDigitsCore_no_underscore (fuel : Nat) :
    ∀ (n : Nat) (ds : List Char), '_' ∉ ds → '_' ∉ Nat.toDigitsCore 10 fuel n ds := by
  induction fuel with
  | zero => intro n ds h; simpa [Nat.toDigitsCore] using h
  | succ f ih =>
    intro n ds h
    have hd : '_' ∉ (Nat.digitChar (n % 10) :: ds) := by
      simp only [List.mem_cons, not_or]
      exact ⟨fun e => digitChar_ne_underscore _ (Nat.mod_lt _ (by decide)) e.symm, h⟩
    simp only [Nat.toDigitsCore]
    split_ifs
    · exact hd
    · exact ih _ _ hd

theorem nat_repr_no_underscore (n : Nat) : '_' ∉ (Nat.repr n).data := by
  simp only [Nat.repr, List.asString]
  exact toDigitsCore_no_underscore _ _ _ (by simp)

/-- The decimal text `%d` prints for an integer holds no underscore. -/
theorem int_toString_no_underscore (i : Int) : '_' ∉ (toString i).data := by
  cases i with
  | ofNat m => exact nat_repr_no_underscore m
  | negSucc m =>
    show '_' ∉ ("-" ++ Nat.repr (Nat.succ m)).data
    rw [String.data_append]
    simp only [List.mem_append, not_or]
    exact ⟨by decide, nat_repr_no_underscore _⟩

theorem splitChars_ne_nil (sep : Char) (l : List Char) : splitChars sep l ≠ [] := by
  cases l with
  | nil => simp [splitChars]
  | cons c cs =>
    simp only [splitChars]
    split_ifs
    · simp
    · split <;> simp

/-- One more piece than there are separators. -/
theorem length_splitChars (sep : Char) (l : List Char) :
    (splitChars sep l).length = l.count sep + 1 := by
  induction l with
  | nil => simp [splitChars]
  | cons c cs ih =>
    simp only [splitChars]
    by_cases h : c = sep
    · subst h
      simp [ih]
    · have hc : List.count sep (c :: cs) = List.count sep cs := by
        rw [List.count_cons]
        simp [h]
      rw [if_neg h, hc, ← ih]
      split
      · next heq => exact absurd heq (splitChars_ne_nil sep cs)
      · next p ps heq => simp [heq]

theorem splitChars_of_not_mem (sep : Char) (l : List Char) (h : sep ∉ l) :
    splitChars sep l = [l] := by
  induction l with
  | nil => simp [splitChars]
  | cons c cs ih =>
    simp only [List.mem_cons, not_or] at h
    have hne : ¬ c = sep := fun e => h.1 e.symm
    simp [splitChars, hne, ih h.2]

theorem splitChars_append_sep (sep : Char) (a b : List Char) (h : sep ∉ a) :
    splitChars sep (a ++ sep :: b) = a :: splitChars sep b := by
  induction a with
  | nil => simp [splitChars]
  | cons c cs ih =>
    simp only [List.mem_cons, not_or] at h
    have hne : ¬ c = sep := fun e => h.1 e.symm
    simp [splitChars, hne, ih h.2]

theorem takeWhile_append_sep (sep : Char) (a b : List Char) (h : sep ∉ a) :
    (a ++ sep :: b).takeWhile (fun c => c != sep) = a := by
  induction a with
  | nil => simp
  | cons c cs ih =>
    simp only [List.mem_cons, not_or] at h
    have hne : (c != sep) = true := by
      simpa using fun e : c = sep => h.1 e.symm
    simp [List.takeWhile, hne, ih h.2]

/-- A list with a separator in it is what comes before the first one, the
separator, and the rest. -/
theorem exists_first_sep (sep : Char) (l : List Char) (h : sep ∈ l) :
    ∃ a b, l = a ++ sep :: b ∧ sep ∉ a := by
  induction l with
  | nil => simp at h
  | cons c cs ih =>
    by_cases hc : c = sep
    · exact ⟨[], cs, by simp [hc], by simp⟩
    · have hmem : sep ∈ cs := by
        rcases List.mem_cons.mp h with e | e
        · exact absurd e.symm hc
        · exact e
      obtain ⟨a, b, hab, ha⟩ := ih hmem
      refine ⟨c :: a, b, by simp [hab], ?_⟩
      simp only [List.mem_cons, not_or]
      exact ⟨fun e => hc e.symm, ha⟩

end strings

/-! ## Lemmas on the store and its client -/

namespace redis

open errno

theorem RDB.Set_ok_iff (s : Store) (key value : String) (expiration : Int) :
    (RDB.Set s key value expiration).1 = none ↔ s.fault = none := by
  unfold RDB.Set
  cases h : s.fault <;> simp

theorem RDB.Set_of_reachable (s : Store) (key value : String) (expiration : Int)
    (h : s.fault = none) :
    RDB.Set s key value expiration =
      (none, { s with data := fun k =>
        (if k = key then some (Entry.mk value (RDB.expiry s key expiration))
         else s.data k) }) := by
  unfold RDB.Set
  rw [h]

theorem RDB.Set_of_fault (s : Store) (key value : String) (expiration : Int)
    (e : String) (h : s.fault = some e) :
    RDB.Set s key value expiration = (some e, s) := by
  unfold RDB.Set
  rw [h]

theorem RDB.expiry_pos (s : Store) (key : String) (expiration : Int)
    (h : 0 < expiration) : RDB.expiry s key expiration = some (s.clock + expiration) := by
  unfold RDB.expiry
  rw [if_pos h]

/-- Reading a key back after a write with a positive expiration, when no more
than that much time has passed, gives the value written. -/
theorem RDB.Get_advance_Set (s : Store) (key value : String) (expiration : Int)
    (d : Nat) (h : s.fault = none) (hpos : 0 < expiration) (hd : (d : Int) ≤ expiration) :
    RDB.Get ((RDB.Set s key value expiration).2.advance d) key = (value, none) := by
  rw [RDB.Set_of_reachable s key value expiration h, RDB.expiry_pos s key expiration hpos]
  have hlive : s.clock + (d : Int) ≤ s.clock + expiration := by omega
  simp [RDB.Get, Store.advance, Store.lookup, Entry.live, h, hlive]

/-- What `GetCodeCache` makes of a value the store returned. -/
theorem GetCodeCache_of_value (s : Store) (key v : String) (h : RDB.Get s key = (v, none)) :
    GetCodeCache s key =
      if (strings.Split v '_').length ≠ 2 then
        ("", some (NewErrNo InternalRedisErrorCode "验证码格式错误"))
      else ((strings.Split v '_').headD "", none) := by
  unfold GetCodeCache
  rw [h]

theorem PutCodeToCache_ok_iff (s : Store) (key code : String) :
    (PutCodeToCache s key code).1 = none ↔ s.fault = none := by
  unfold PutCodeToCache
  cases h : s.fault with
  | none => simp [RDB.Set_of_reachable _ _ _ _ h]
  | some e => simp [RDB.Set_of_fault _ _ _ _ e h]

theorem PutCodeToCache_snd (s : Store) (key code : String) :
    (PutCodeToCache s key code).2 =
      (RDB.Set s key (code ++ "_" ++ toString (time.Unix s.clock)) (10 * time.Minute)).2 := by
  unfold PutCodeToCache
  simp only
  split <;> simp_all

/-- A value `code_timestamp` whose code holds no underscore splits into the
code and the timestamp. -/
theorem Split_code_value (code : String) (i : Int) (h : '_' ∉ code.data) :
    strings.Split (code ++ "_" ++ toString i) '_' = [code, toString i] := by
  unfold strings.Split
  have hdata : (code ++ "_" ++ toString i).data = code.data ++ '_' :: (toString i).data := by
    simp [String.data_append]
  rw [hdata, strings.splitChars_append_sep _ _ _ h,
    strings.splitChars_of_not_mem _ _ (strings.int_toString_no_underscore i)]
  rfl

/-! ### Lemmas for histories -/

theorem RDB.Set_fault (s : Store) (key value : String) (expiration : Int) :
    (RDB.Set s key value expiration).2.fault = s.fault := by
  unfold RDB.Set
  cases h : s.fault <;> simp [h]

theorem RDB.Set_data (s : Store) (key value : String) (expiration : Int) (k : String) :
    (RDB.Set s key value expiration).2.data k = s.data k ∨
    (k = key ∧ ∃ x, (RDB.Set s key value expiration).2.data k = some (Entry.mk value x)) := by
  unfold RDB.Set
  cases h : s.fault with
  | some e => simp
  | none =>
    by_cases hk : k = key
    · right; simp [hk]
    · left; simp [hk]

theorem RDB.Del_fault (s : Store) (key : String) : (RDB.Del s key).2.fault = s.fault := by
  unfold RDB.Del
  cases h : s.fault <;> simp [h]

theorem RDB.Del_data (s : Store) (key k : String) :
    (RDB.Del s key).2.data k = s.data k ∨ (RDB.Del s key).2.data k = none := by
  unfold RDB.Del
  cases h : s.fault with
  | some e => simp
  | none =>
    by_cases hk : k = key
    · right; simp [hk]
    · left; simp [hk]

theorem DeleteCodeCache_snd (s : Store) (key : String) :
    (DeleteCodeCache s key).2 = (RDB.Del s key).2 := by
  unfold DeleteCodeCache
  split <;> simp_all

theorem SetBlacklistToken_snd (s : Store) (token : String) :
    (SetBlacklistToken s token).2 = (RDB.Set s token "blacklisted" (time.Hour * 72)).2 := by
  unfold SetBlacklistToken
  split <;> simp_all

theorem SetBlacklistToken_ok_iff (s : Store) (token : String) :
    (SetBlacklistToken s token).1 = none ↔ s.fault = none := by
  unfold SetBlacklistToken
  cases h : s.fault with
  | none => simp [RDB.Set_of_reachable _ _ _ _ h]
  | some e => simp [RDB.Set_of_fault _ _ _ _ e h]

theorem SetEmailRateLimit_snd (s : Store) (ip : String) :
    (SetEmailRateLimit s ip).2 =
      (RDB.Set s ("email_rate_limit:" ++ ip) "1" (1 * time.Minute)).2 := by
  unfold SetEmailRateLimit
  simp only
  split <;> simp_all

theorem SetEmailRateLimit_ok_iff (s : Store) (ip : String) :
    (SetEmailRateLimit s ip).1 = none ↔ s.fault = none := by
  unfold SetEmailRateLimit
  cases h : s.fault with
  | none => simp [RDB.Set_of_reachable _ _ _ _ h]
  | some e => simp [RDB.Set_of_fault _ _ _ _ e h]

theorem SetUserInfoCache_snd {User : Type} (json : Json User) (s : Store) (userId : String)
    (data : Option User) (expiration : Int) :
    (SetUserInfoCache json s userId data expiration).2 = s ∨
    ∃ b, json.Marshal data = .ok b ∧
      (SetUserInfoCache json s userId data expiration).2 =
        (RDB.Set s ("user:" ++ userId) b expiration).2 := by
  unfold SetUserInfoCache
  cases h : json.Marshal data with
  | error e => left; rfl
  | ok b =>
    right
    refine ⟨b, rfl, ?_⟩
    simp only
    split <;> simp_all

theorem NotMarked.set (s : Store) (t key value : String) (expiration : Int)
    (h : NotMarked s t) (hv : key = t → value ≠ "blacklisted") :
    NotMarked (RDB.Set s key value expiration).2 t := by
  refine ⟨by rw [RDB.Set_fault]; exact h.1, ?_⟩
  intro e he
  rcases RDB.Set_data s key value expiration t with hd | ⟨hk, x, hx⟩
  · exact h.2 e (hd ▸ he)
  · rw [hx] at he
    cases he
    exact hv hk.symm

theorem NotMarked.del (s : Store) (t key : String) (h : NotMarked s t) :
    NotMarked (RDB.Del s key).2 t := by
  refine ⟨by rw [RDB.Del_fault]; exact h.1, ?_⟩
  intro e he
  rcases RDB.Del_data s key t with hd | hd
  · exact h.2 e (hd ▸ he)
  · rw [hd] at he
    cases he

theorem code_value_ne_mark (code ts : String) : code ++ "_" ++ ts ≠ "blacklisted" := by
  intro h
  have hmem : '_' ∈ (code ++ "_" ++ ts).data := by simp [String.data_append]
  rw [h] at hmem
  exact absurd hmem (by decide)

theorem NotMarked.apply {User : Type} (json : Json User)
    (hjson : ∀ d b, json.Marshal d = .ok b → b ≠ "blacklisted")
    (s : Store) (t : String) (op : Op User) (h : NotMarked s t)
    (hop : op ≠ Op.SetBlacklistToken t) : NotMarked (Op.apply json s op) t := by
  cases op with
  | PutCodeToCache key code =>
    simp only [Op.apply, PutCodeToCache_snd]
    exact NotMarked.set _ _ _ _ _ h (fun _ => code_value_ne_mark _ _)
  | DeleteCodeCache key =>
    simp only [Op.apply, DeleteCodeCache_snd]
    exact NotMarked.del _ _ _ h
  | SetBlacklistToken token =>
    simp only [Op.apply, SetBlacklistToken_snd]
    refine NotMarked.set _ _ _ _ _ h (fun hk => ?_)
    exact absurd (by rw [hk]) hop
  | SetUserInfoCache userId data expiration =>
    simp only [Op.apply]
    rcases SetUserInfoCache_snd json s userId data expiration with hs | ⟨b, hb, hs⟩
    · rw [hs]; exact h
    · rw [hs]
      exact NotMarked.set _ _ _ _ _ h (fun _ => hjson data b hb)
  | SetEmailRateLimit ip =>
    simp only [Op.apply, SetEmailRateLimit_snd]
    exact NotMarked.set _ _ _ _ _ h (fun _ => by decide)
  | advance d => exact h

theorem NotMarked.run {User : Type} (json : Json User)
    (hjson : ∀ d b, json.Marshal d = .ok b → b ≠ "blacklisted")
    (t : String) (ops : List (Op User)) :
    ∀ s : Store, NotMarked s t → Op.SetBlacklistToken t ∉ ops → NotMarked (run json s ops) t := by
  induction ops with
  | nil => intro s h _; exact h
  | cons op rest ih =>
    intro s h hnot
    simp only [List.mem_cons, not_or] at hnot
    exact ih _ (NotMarked.apply json hjson s t op h (fun e => hnot.1 e.symm)) hnot.2

theorem IsBlacklistToken_of_notMarked (s : Store) (t : String) (h : NotMarked s t) :
    IsBlacklistToken s t = (false, none) := by
  unfold IsBlacklistToken RDB.Get Store.lookup
  rw [h.1]
  cases hd : s.data t with
  | none => simp [RDB.Nil]
  | some e =>
    have hne := h.2 e hd
    by_cases hl : e.live s.clock <;> simp [hl, hne, RDB.Nil]

/-! ### Keys, and what an operation leaves alone -/

theorem append_left_cancel (p a b : String) : p ++ a = p ++ b ↔ a = b := by
  constructor
  · intro h
    have hdata := congrArg String.data h
    simp only [String.data_append, List.append_cancel_left_eq] at hdata
    exact String.ext hdata
  · intro h
    rw [h]

theorem rate_limit_key_ne_user_key (ip userId : String) :
    "email_rate_limit:" ++ ip ≠ "user:" ++ userId := by
  intro h
  have hdata := congrArg String.data h
  simp [String.data_append] at hdata

/-- The answer of `RDB.Get` for a key depends only on whether the store can be
reached, on the clock and on the entry under that key. -/
theorem RDB.Get_congr (s s' : Store) (k : String) (hf : s'.fault = s.fault)
    (hc : s'.clock = s.clock) (hd : s'.data k = s.data k) : RDB.Get s' k = RDB.Get s k := by
  simp [RDB.Get, Store.lookup, hf, hc, hd]

theorem IsKeyExist_congr (s s' : Store) (k : String)
    (hc : s'.clock = s.clock) (hd : s'.data k = s.data k) : IsKeyExist s' k = IsKeyExist s k := by
  simp [IsKeyExist, Store.lookup, hc, hd]

theorem RDB.Set_clock (s : Store) (key value : String) (expiration : Int) :
    (RDB.Set s key value expiration).2.clock = s.clock := by
  unfold RDB.Set
  cases h : s.fault <;> simp

theorem RDB.Set_data_of_ne (s : Store) (key value : String) (expiration : Int) (k : String)
    (hk : k ≠ key) : (RDB.Set s key value expiration).2.data k = s.data k := by
  unfold RDB.Set
  cases h : s.fault <;> simp [hk]

theorem RDB.Del_clock (s : Store) (key : String) : (RDB.Del s key).2.clock = s.clock := by
  unfold RDB.Del
  cases h : s.fault <;> simp

theorem RDB.Del_data_of_ne (s : Store) (key k : String) (hk : k ≠ key) :
    (RDB.Del s key).2.data k = s.data k := by
  unfold RDB.Del
  cases h : s.fault <;> simp [hk]

/-- An operation that writes one key leaves the reachability of the store,
the clock and the entry under every other key as they were. -/
theorem Op.apply_frame {User : Type} (json : Json User) (s : Store) (op : Op User)
    (key k : String) (hop : op.writtenKey = some key) (hk : k ≠ key) :
    (Op.apply json s op).fault = s.fault ∧ (Op.apply json s op).clock = s.clock ∧
      (Op.apply json s op).data k = s.data k := by
  cases op with
  | PutCodeToCache key' code =>
    simp only [Op.writtenKey, Option.some.injEq] at hop
    subst hop
    simp only [Op.apply, PutCodeToCache_snd]
    exact ⟨RDB.Set_fault _ _ _ _, RDB.Set_clock _ _ _ _, RDB.Set_data_of_ne _ _ _ _ _ hk⟩
  | DeleteCodeCache key' =>
    simp only [Op.writtenKey, Option.some.injEq] at hop
    subst hop
    simp only [Op.apply, DeleteCodeCache_snd]
    exact ⟨RDB.Del_fault _ _, RDB.Del_clock _ _, RDB.Del_data_of_ne _ _ _ hk⟩
  | SetBlacklistToken token =>
    simp only [Op.writtenKey, Option.some.injEq] at hop
    subst hop
    simp only [Op.apply, SetBlacklistToken_snd]
    exact ⟨RDB.Set_fault _ _ _ _, RDB.Set_clock _ _ _ _, RDB.Set_data_of_ne _ _ _ _ _ hk⟩
  | SetUserInfoCache userId data expiration =>
    simp only [Op.writtenKey, Option.some.injEq] at hop
    subst hop
    simp only [Op.apply]
    rcases SetUserInfoCache_snd json s userId data expiration with hs | ⟨b, -, hs⟩
    · rw [hs]
      exact ⟨rfl, rfl, rfl⟩
    · rw [hs]
      exact ⟨RDB.Set_fault _ _ _ _, RDB.Set_clock _ _ _ _, RDB.Set_data_of_ne _ _ _ _ _ hk⟩
  | SetEmailRateLimit ip =>
    simp only [Op.writtenKey, Option.some.injEq] at hop
    subst hop
    simp only [Op.apply, SetEmailRateLimit_snd]
    exact ⟨RDB.Set_fault _ _ _ _, RDB.Set_clock _ _ _ _, RDB.Set_data_of_ne _ _ _ _ _ hk⟩
  | advance d => simp [Op.writtenKey] at hop

theorem GetCodeCache_congr (s s' : Store) (k : String) (h : RDB.Get s' k = RDB.Get s k) :
    GetCodeCache s' k = GetCodeCache s k := by
  unfold GetCodeCache
  rw [h]

theorem IsBlacklistToken_congr (s s' : Store) (k : String) (h : RDB.Get s' k = RDB.Get s k) :
    IsBlacklistToken s' k = IsBlacklistToken s k := by
  unfold IsBlacklistToken
  rw [h]

theorem GetUserInfoCache_congr {User : Type} (json : Json User) (s s' : Store) (userId : String)
    (h : RDB.Get s' ("user:" ++ userId) = RDB.Get s ("user:" ++ userId)) :
    GetUserInfoCache json s' userId = GetUserInfoCache json s userId := by
  unfold GetUserInfoCache
  simp only [h]

/-- An operation that does not write a key leaves the reachability of the
store and the entry stored under that key as they were. -/
theorem Op.apply_keeps {User : Type} (json : Json User) (s : Store) (op : Op User)
    (k : String) (hop : op.writtenKey ≠ some k) :
    (Op.apply json s op).fault = s.fault ∧ (Op.apply json s op).data k = s.data k := by
  cases hw : op.writtenKey with
  | some key =>
    have h := Op.apply_frame json s op key k hw (fun e => hop (by rw [hw, e]))
    exact ⟨h.1, h.2.2⟩
  | none =>
    cases op <;> simp [Op.writtenKey] at hw
    exact ⟨rfl, rfl⟩

/-- A history none of whose operations writes a key leaves a reachable store
reachable and an empty slot under that key empty. -/
theorem run_keeps_absent {User : Type} (json : Json User) (k : String) (ops : List (Op User)) :
    ∀ s : Store, s.fault = none → s.data k = none →
      (∀ op ∈ ops, op.writtenKey ≠ some k) →
      (run json s ops).fault = none ∧ (run json s ops).data k = none := by
  induction ops with
  | nil => intro s hf hd _; exact ⟨hf, hd⟩
  | cons op rest ih =>
    intro s hf hd hops
    have h := Op.apply_keeps json s op k (hops op (List.mem_cons_self _ _))
    exact ih _ (h.1.trans hf) (h.2.trans hd)
      (fun o ho => hops o (List.mem_cons_of_mem _ ho))

theorem GetUserInfoCache_of_absent {User : Type} (json : Json User) (s : Store)
    (userId : String) (hf : s.fault = none) (hl : s.lookup ("user:" ++ userId) = none) :
    GetUserInfoCache json s userId = (none, none) := by
  simp [GetUserInfoCache, RDB.Get, hf, hl, RDB.Nil]

theorem lookup_of_data_none (s : Store) (k : String) (h : s.data k = none) :
    s.lookup k = none := by
  simp [Store.lookup, h]

end redis
/-! ## Lemmas on `strings.Fields` and `strings.EqualFold` -/

namespace strings

/-- Every field is non-empty and holds no white space, provided the field
being read holds none. -/
theorem fieldsChars_mem (l : List Char) :
    ∀ cur : List Char, (∀ c ∈ cur, unicode.IsSpace c = false) →
      ∀ f ∈ fieldsChars l cur, f ≠ [] ∧ ∀ c ∈ f, unicode.IsSpace c = false := by
  induction l with
  | nil =>
    intro cur hcur f hf
    by_cases h : cur = []
    · simp [fieldsChars, h] at hf
    · simp only [fieldsChars, if_neg h, List.mem_singleton] at hf
      subst hf
      exact ⟨by simpa using h, fun c hc => hcur c (List.mem_reverse.mp hc)⟩
  | cons a as ih =>
    intro cur hcur f hf
    by_cases ha : unicode.IsSpace a = true
    · by_cases h : cur = []
      · simp only [fieldsChars, ha, if_true, if_pos h] at hf
        exact ih [] (by simp) f hf
      · simp only [fieldsChars, ha, if_true, if_neg h, List.mem_cons] at hf
        rcases hf with hf | hf
        · subst hf
          exact ⟨by simpa using h, fun c hc => hcur c (List.mem_reverse.mp hc)⟩
        · exact ih [] (by simp) f hf
    · simp only [fieldsChars, ha] at hf
      refine ih (a :: cur) ?_ f hf
      intro c hc
      rcases List.mem_cons.mp hc with e | e
      · rw [e]
        simpa using ha
      · exact hcur c e

/-- There is no field exactly when nothing is being read and all that
follows is white space. -/
theorem fieldsChars_eq_nil_iff (l : List Char) :
    ∀ cur : List Char,
      fieldsChars l cur = [] ↔ cur = [] ∧ ∀ c ∈ l, unicode.IsSpace c = true := by
  induction l with
  | nil =>
    intro cur
    by_cases h : cur = [] <;> simp [fieldsChars, h]
  | cons a as ih =>
    intro cur
    by_cases ha : unicode.IsSpace a = true
    · by_cases h : cur = []
      · simp [fieldsChars, ha, h, ih]
      · simp [fieldsChars, ha, h]
    · simp [fieldsChars, ha, ih]

/-- The fields of a string are non-empty strings without white space. -/
theorem Fields_mem (s f : String) (h : f ∈ Fields s) :
    f ≠ "" ∧ ∀ c ∈ f.data, unicode.IsSpace c = false := by
  unfold Fields at h
  obtain ⟨l, hl, rfl⟩ := List.mem_map.mp h
  have hspec := fieldsChars_mem s.data [] (by simp) l hl
  refine ⟨?_, hspec.2⟩
  intro e
  exact hspec.1 (congrArg String.data e)

/-- A string has no field exactly when it holds nothing but white space. -/
theorem Fields_eq_nil_iff (s : String) :
    Fields s = [] ↔ ∀ c ∈ s.data, unicode.IsSpace c = true := by
  unfold Fields
  rw [List.map_eq_nil_iff, fieldsChars_eq_nil_iff]
  simp

/-- Two ASCII runes are compared without the folding tables. -/
theorem equalFoldRune_of_ascii (fold fold' : unicode.FoldTable) (sr tr : Char)
    (hs : sr.toNat < 0x80) (ht : tr.toNat < 0x80) :
    equalFoldRune fold sr tr = equalFoldRune fold' sr tr := by
  unfold equalFoldRune
  by_cases h : tr = sr
  · simp [h]
  · by_cases hlt : tr.toNat < sr.toNat <;> simp [h, hlt, hs, ht]

/-- The ASCII runes that match a letter of `Bearer`: the table of all 128. -/
theorem equalFoldRune_ascii_letter :
    ∀ n : Fin 128,
      (equalFoldRune (fun _ _ => false) (Char.ofNat n) 'B'
        = decide ((Char.ofNat n).toLower = 'b')) ∧
      (equalFoldRune (fun _ _ => false) (Char.ofNat n) 'e'
        = decide ((Char.ofNat n).toLower = 'e')) ∧
      (equalFoldRune (fun _ _ => false) (Char.ofNat n) 'a'
        = decide ((Char.ofNat n).toLower = 'a')) ∧
      (equalFoldRune (fun _ _ => false) (Char.ofNat n) 'r'
        = decide ((Char.ofNat n).toLower = 'r')) := by
  decide

theorem toLower_of_not_ascii (c : Char) (h : 0x80 ≤ c.toNat) : c.toLower = c := by
  unfold Char.toLower
  have : ¬ (c.toNat ≥ 65 ∧ c.toNat ≤ 90) := by omega
  simp [this]

/-- With folding tables in which no rune outside ASCII folds with a letter of
`Bearer`, a rune matches such a letter exactly when both have the same lower
case form. -/
theorem equalFoldRune_bearerLetter (fold : unicode.FoldTable)
    (hfold : ∀ lo hi : Char, bearerLetter lo → 0x80 ≤ hi.toNat → fold lo hi = false)
    (sr tr : Char) (htr : bearerLetter tr) :
    equalFoldRune fold sr tr = true ↔ sr.toLower = tr.toLower := by
  have htr128 : tr.toNat < 0x80 := by
    rcases htr with h | h | h | h <;> subst h <;> decide
  by_cases hs : sr.toNat < 0x80
  · rw [equalFoldRune_of_ascii fold (fun _ _ => false) sr tr hs htr128]
    have htab := equalFoldRune_ascii_letter ⟨sr.toNat, hs⟩
    simp only [Char.ofNat_toNat] at htab
    rcases htr with h | h | h | h <;> subst h
    · rw [htab.1]
      simp
    · rw [htab.2.1]
      simp
    · rw [htab.2.2.1]
      simp
    · rw [htab.2.2.2]
      simp
  · have hs' : 0x80 ≤ sr.toNat := by omega
    have hne : tr ≠ sr := by
      intro e
      rw [e] at htr128
      omega
    have hlt : tr.toNat < sr.toNat := by omega
    have hl : equalFoldRune fold sr tr = false := by
      unfold equalFoldRune
      simp [hne, hlt, hs, hfold tr sr htr hs']
    rw [hl, toLower_of_not_ascii sr hs']
    constructor
    · intro h
      cases h
    · intro h
      exfalso
      have h2 : tr.toLower.toNat < 0x80 := by
        rcases htr with e | e | e | e <;> subst e <;> decide
      rw [← h] at h2
      omega

/-- With such folding tables, a string is equal to `Bearer` under case
folding exactly when its lower case form is `bearer`. -/
theorem EqualFold_Bearer_iff (fold : unicode.FoldTable)
    (hfold : ∀ lo hi : Char, bearerLetter lo → 0x80 ≤ hi.toNat → fold lo hi = false)
    (s : String) :
    EqualFold fold s "Bearer" = true ↔ s.data.map Char.toLower = "bearer".data := by
  have hB : bearerLetter 'B' := Or.inl rfl
  have he : bearerLetter 'e' := Or.inr (Or.inl rfl)
  have ha : bearerLetter 'a' := Or.inr (Or.inr (Or.inl rfl))
  have hr : bearerLetter 'r' := Or.inr (Or.inr (Or.inr rfl))
  have h1 := fun c => equalFoldRune_bearerLetter fold hfold c 'B' hB
  have h2 := fun c => equalFoldRune_bearerLetter fold hfold c 'e' he
  have h3 := fun c => equalFoldRune_bearerLetter fold hfold c 'a' ha
  have h4 := fun c => equalFoldRune_bearerLetter fold hfold c 'r' hr
  have hlB : Char.toLower 'B' = 'b' := rfl
  have hle : Char.toLower 'e' = 'e' := rfl
  have hla : Char.toLower 'a' = 'a' := rfl
  have hlr : Char.toLower 'r' = 'r' := rfl
  unfold EqualFold
  show equalFoldChars fold s.data ['B', 'e', 'a', 'r', 'e', 'r'] = true ↔
    s.data.map Char.toLower = ['b', 'e', 'a', 'r', 'e', 'r']
  rcases s.data with _ | ⟨c1, _ | ⟨c2, _ | ⟨c3, _ | ⟨c4, _ | ⟨c5, _ | ⟨c6, _ | ⟨c7, l⟩⟩⟩⟩⟩⟩⟩ <;>
    simp [equalFoldChars, h1, h2, h3, h4, hlB, hle, hla, hlr]

theorem fieldsChars_skip_space (pre l : List Char)
    (hpre : ∀ c ∈ pre, unicode.IsSpace c = true) :
    fieldsChars (pre ++ l) [] = fieldsChars l [] := by
  induction pre with
  | nil => rfl
  | cons a as ih =>
    have ha : unicode.IsSpace a = true := hpre a (List.mem_cons_self _ _)
    simp only [List.cons_append, fieldsChars, ha, if_true]
    exact ih (fun c hc => hpre c (List.mem_cons_of_mem _ hc))

theorem fieldsChars_read (w : List Char) (hw : ∀ c ∈ w, unicode.IsSpace c = false) :
    ∀ (l cur : List Char), fieldsChars (w ++ l) cur = fieldsChars l (w.reverse ++ cur) := by
  induction w with
  | nil => intro l cur; rfl
  | cons a as ih =>
    intro l cur
    have ha : unicode.IsSpace a = false := hw a (List.mem_cons_self _ _)
    have h := ih (fun c hc => hw c (List.mem_cons_of_mem _ hc)) l (a :: cur)
    simp [fieldsChars, ha, h]

/-- How `strings.Fields` reads a string: after leading white space `pre`, a
non-empty run `w` without white space that is followed by the end of the
string or by a white space rune is the first field, and the other fields are
those of what follows. -/
theorem fieldsChars_first_field (pre w post : List Char)
    (hpre : ∀ c ∈ pre, unicode.IsSpace c = true)
    (hw : ∀ c ∈ w, unicode.IsSpace c = false) (hne : w ≠ [])
    (hpost : post = [] ∨ ∃ c rest, post = c :: rest ∧ unicode.IsSpace c = true) :
    fieldsChars (pre ++ (w ++ post)) [] = w :: fieldsChars post [] := by
  rw [fieldsChars_skip_space pre _ hpre, fieldsChars_read w hw]
  have hrev : w.reverse ++ [] ≠ [] := by simpa using hne
  rcases hpost with h | ⟨c, rest, h, hc⟩
  · subst h
    simp [fieldsChars, hne]
  · subst h
    simp [fieldsChars, hc, hne]

theorem Fields_empty : Fields "" = [] := by
  decide

end strings

/-! ## Lemmas on `LoginOut` -/

namespace service

open errno redis

theorem LoginOut_call (s : Store) (token : String) :
    (match SetBlacklistToken s token with
      | (some err, s') => ((some err, s') : Option ErrNo × Store)
      | (none, s') => (none, s')) = SetBlacklistToken s token := by
  rcases SetBlacklistToken s token with ⟨e, s'⟩
  cases e <;> rfl

theorem LoginOut_of_no_field (fold : unicode.FoldTable) (s : Store) (h : String)
    (hf : strings.Fields h = []) : LoginOut fold s h = (none, s) := by
  unfold LoginOut
  by_cases he : h = ""
  · simp [he]
  · simp [he, hf]

theorem Fields_ne_empty (h f : String) (rest : List String)
    (hf : strings.Fields h = f :: rest) : h ≠ "" := by
  intro e
  rw [e, strings.Fields_empty] at hf
  cases hf

theorem LoginOut_bearer_alone (fold : unicode.FoldTable) (s : Store) (h f : String)
    (hf : strings.Fields h = [f]) (hb : strings.EqualFold fold f "Bearer" = true) :
    LoginOut fold s h = (none, s) := by
  simp [LoginOut, Fields_ne_empty h f [] hf, hf, hb]

theorem LoginOut_bearer_token (fold : unicode.FoldTable) (s : Store) (h f token : String)
    (rest : List String) (hf : strings.Fields h = f :: token :: rest)
    (hb : strings.EqualFold fold f "Bearer" = true) :
    LoginOut fold s h = SetBlacklistToken s token := by
  simp [LoginOut, Fields_ne_empty h f _ hf, hf, hb, LoginOut_call]

theorem LoginOut_direct_token (fold : unicode.FoldTable) (s : Store) (h f : String)
    (rest : List String) (hf : strings.Fields h = f :: rest)
    (hb : strings.EqualFold fold f "Bearer" = false) :
    LoginOut fold s h = SetBlacklistToken s f := by
  simp [LoginOut, Fields_ne_empty h f _ hf, hf, hb, LoginOut_call]

end service

/-! ## The claims -/

namespace redis

open errno

/-- C1 (amended): for every recipient key and every code that holds no
delimiter `_`, in a store where `PutCodeToCache key code` has just succeeded
and less than the 10 minutes of its expiration have passed, `GetCodeCache key`
succeeds and returns exactly that code. -/
theorem C1_roundtrip_delimiter_free_code (s : Store) (key code : String) (d : Nat)
    (hcode : '_' ∉ code.data)
    (hput : (PutCodeToCache s key code).1 = none)
    (hd : (d : Int) < 10 * time.Minute) :
    GetCodeCache ((PutCodeToCache s key code).2.advance d) key = (code, none) := by
  have hreach : s.fault = none := (PutCodeToCache_ok_iff s key code).mp hput
  have hget := RDB.Get_advance_Set s key (code ++ "_" ++ toString (time.Unix s.clock))
    (10 * time.Minute) d hreach (by decide) (le_of_lt hd)
  rw [PutCodeToCache_snd, GetCodeCache_of_value _ _ _ hget, Split_code_value _ _ hcode]
  simp

/-- C1, witness: the code `482913` issued for `user@example.com` is read back
one nanosecond before its ten minutes are over. -/
theorem C1_roundtrip_witness :
    '_' ∉ "482913".data ∧
    GetCodeCache ((PutCodeToCache (Store.empty 1700000000000000000) "user@example.com"
        "482913").2.advance 599999999999) "user@example.com" = ("482913", none) :=
  ⟨by decide,
   C1_roundtrip_delimiter_free_code (Store.empty 1700000000000000000) "user@example.com"
     "482913" 599999999999 (by decide) (by decide) (by decide)⟩

/-- C1, counterexample to the claim as stated ("every code string"): the code
`48_2913` is stored successfully, and the lookup right after reports the
format error and the empty code instead of returning it. -/
theorem C1_counterexample_code_with_delimiter :
    (PutCodeToCache (Store.empty 1700000000000000000) "user@example.com" "48_2913").1 = none ∧
    GetCodeCache (PutCodeToCache (Store.empty 1700000000000000000) "user@example.com"
        "48_2913").2 "user@example.com"
      = ("", some (NewErrNo InternalRedisErrorCode "验证码格式错误")) := by
  decide

/-- The sample serialisation never produces the revocation mark. -/
theorem sampleJson_marshal_ne_mark :
    ∀ (d : Option Nat) (b : String), sampleJson.Marshal d = .ok b → b ≠ "blacklisted" := by
  intro d b h hb
  subst hb
  cases d with
  | none => simp [sampleJson] at h
  | some n =>
    simp only [sampleJson, Except.ok.injEq] at h
    have hdata := congrArg String.data h
    simp [String.data_append] at hdata

/-- C2: starting from the empty store, `IsBlacklistToken t` returns
`(false, nil)` in every state reached by a history of cache operations (and
of time passing) in which `SetBlacklistToken t` does not occur, and it returns
`(true, nil)` in the state right after a successful `SetBlacklistToken t`.
The serialisation of profile records, which lies outside the files at hand,
is assumed never to produce the bare word `blacklisted`. -/
theorem C2_revocation_membership {User : Type} (json : Json User)
    (hjson : ∀ d b, json.Marshal d = .ok b → b ≠ "blacklisted")
    (now : Int) (t : String) :
    (∀ ops : List (Op User), Op.SetBlacklistToken t ∉ ops →
      IsBlacklistToken (run json (Store.empty now) ops) t = (false, none)) ∧
    (∀ s : Store, (SetBlacklistToken s t).1 = none →
      IsBlacklistToken (SetBlacklistToken s t).2 t = (true, none)) := by
  constructor
  · intro ops hops
    have hempty : NotMarked (Store.empty now) t := by
      refine ⟨rfl, ?_⟩
      intro e he
      simp [Store.empty] at he
    exact IsBlacklistToken_of_notMarked _ _ (NotMarked.run json hjson t ops _ hempty hops)
  · intro s hok
    have hreach : s.fault = none := (SetBlacklistToken_ok_iff s t).mp hok
    have hget := RDB.Get_advance_Set s t "blacklisted" (time.Hour * 72) 0 hreach
      (by decide) (by decide)
    have hadv : ∀ x : Store, x.advance 0 = x := by
      intro x
      simp [Store.advance]
    rw [hadv] at hget
    rw [SetBlacklistToken_snd]
    unfold IsBlacklistToken
    rw [hget]
    simp

/-- C2, witness (scenario B of the spec): after a history that issues a code
under the very key `tok_abc`, revokes another token, caches a profile and
lets time pass, `tok_abc` is not revoked; right after its revocation it is. -/
theorem C2_revocation_membership_witness :
    IsBlacklistToken (run sampleJson (Store.empty 1700000000000000000)
      [Op.PutCodeToCache "tok_abc" "482913", Op.SetBlacklistToken "tok_never_seen",
       Op.SetUserInfoCache "42" (some 42) (30 * time.Minute), Op.advance 5,
       Op.SetEmailRateLimit "203.0.113.5", Op.DeleteCodeCache "tok_abc"]) "tok_abc"
      = (false, none) ∧
    IsBlacklistToken (SetBlacklistToken (Store.empty 1700000000000000000) "tok_abc").2 "tok_abc"
      = (true, none) :=
  ⟨(C2_revocation_membership sampleJson sampleJson_marshal_ne_mark 1700000000000000000
      "tok_abc").1 _ (by simp),
   (C2_revocation_membership sampleJson sampleJson_marshal_ne_mark 1700000000000000000
      "tok_abc").2 _ (by decide)⟩

/-- C3: the decision table of `IsBlacklistToken`, for every store, token and
answer of the store.  Not found (`redis: nil`) gives `(false, nil)`; a value
gives `(true, nil)` exactly when it is the sentinel `blacklisted`, and
`(false, nil)` otherwise; every other error of the store gives `false` with a
non-nil error, hence never `(false, nil)`.  Altogether the result is
`(true, nil)` if and only if the store returned the sentinel. -/
theorem C3_decision_table (s : Store) (token : String) :
    (∀ v : String, RDB.Get s token = (v, some "redis: nil") →
      IsBlacklistToken s token = (false, none)) ∧
    (∀ v : String, RDB.Get s token = (v, none) →
      (IsBlacklistToken s token = (true, none) ↔ v = "blacklisted") ∧
      (v ≠ "blacklisted" → IsBlacklistToken s token = (false, none))) ∧
    (∀ v e : String, e ≠ "redis: nil" → RDB.Get s token = (v, some e) →
      IsBlacklistToken s token =
        (false, some (NewErrNo InternalRedisErrorCode ("获取令牌黑名单状态失败: " ++ e))) ∧
      IsBlacklistToken s token ≠ (false, none)) ∧
    (IsBlacklistToken s token = (true, none) ↔ RDB.Get s token = ("blacklisted", none)) := by
  refine ⟨?_, ?_, ?_, ?_⟩
  · intro v h
    unfold IsBlacklistToken
    rw [h]
    simp
  · intro v h
    unfold IsBlacklistToken
    rw [h]
    by_cases hv : v = "blacklisted" <;> simp [hv]
  · intro v e he h
    unfold IsBlacklistToken
    rw [h]
    simp [he]
  · unfold IsBlacklistToken
    rcases RDB.Get s token with ⟨v, e⟩
    cases e with
    | some e => by_cases he : e = "redis: nil" <;> simp [he]
    | none => by_cases hv : v = "blacklisted" <;> simp [hv]

/-- C3, witness: the four rows of the table on concrete stores: an empty
store, a store holding the sentinel, a store holding a foreign value under the
token, and a store that cannot be reached. -/
theorem C3_decision_table_witness :
    IsBlacklistToken (Store.empty 0) "tok_abc" = (false, none) ∧
    IsBlacklistToken (SetBlacklistToken (Store.empty 0) "tok_abc").2 "tok_abc" = (true, none) ∧
    IsBlacklistToken (PutCodeToCache (Store.empty 0) "tok_abc" "482913").2 "tok_abc"
      = (false, none) ∧
    IsBlacklistToken ((Store.empty 0).withFault (some "i/o timeout")) "tok_abc"
      = (false, some (NewErrNo InternalRedisErrorCode "获取令牌黑名单状态失败: i/o timeout")) :=
  ⟨(C3_decision_table (Store.empty 0) "tok_abc").1 "" (by decide),
   ((C3_decision_table (SetBlacklistToken (Store.empty 0) "tok_abc").2 "tok_abc").2.1
      "blacklisted" (by decide)).1.mpr rfl,
   ((C3_decision_table (PutCodeToCache (Store.empty 0) "tok_abc" "482913").2 "tok_abc").2.1
      "482913_0" (by decide)).2 (by decide),
   ((C3_decision_table ((Store.empty 0).withFault (some "i/o timeout")) "tok_abc").2.2.1
      "" "i/o timeout" (by decide) (by decide)).1⟩

/-- C4: fail-closed parsing in `GetCodeCache`, for every value `v` the store
returns.  When `v` holds no delimiter `_` or more than one, the result is the
format error with the empty code; when it holds exactly one, the result is
the part of `v` before the delimiter, with no error. -/
theorem C4_fail_closed_parsing (s : Store) (key v : String)
    (hget : RDB.Get s key = (v, none)) :
    (v.data.count '_' ≠ 1 →
      GetCodeCache s key = ("", some (NewErrNo InternalRedisErrorCode "验证码格式错误"))) ∧
    (v.data.count '_' = 1 →
      ∃ code rest : String, v = code ++ "_" ++ rest ∧ '_' ∉ code.data ∧ '_' ∉ rest.data ∧
        code = String.mk (v.data.takeWhile (fun c => c != '_')) ∧
        GetCodeCache s key = (code, none)) := by
  have hlen : (strings.Split v '_').length = v.data.count '_' + 1 := by
    simp [strings.Split, strings.length_splitChars]
  constructor
  · intro hcount
    rw [GetCodeCache_of_value s key v hget, if_pos]
    rw [hlen]
    omega
  · intro hcount
    have hmem : '_' ∈ v.data := by
      apply List.count_pos_iff.mp
      omega
    obtain ⟨a, b, hab, ha⟩ := strings.exists_first_sep '_' v.data hmem
    have hb : '_' ∉ b := by
      intro hb
      have h2 : 0 < List.count '_' b := List.count_pos_iff.mpr hb
      rw [hab, List.count_append, List.count_cons_self] at hcount
      omega
    have hv : v = String.mk a ++ "_" ++ String.mk b := by
      apply String.ext
      simp [String.data_append, hab]
    refine ⟨String.mk a, String.mk b, hv, ha, hb, ?_, ?_⟩
    · rw [hab, strings.takeWhile_append_sep _ _ _ ha]
    · rw [GetCodeCache_of_value s key v hget, if_neg (by rw [hlen]; omega)]
      have hsplit : strings.Split v '_' = [String.mk a, String.mk b] := by
        unfold strings.Split
        rw [hab, strings.splitChars_append_sep _ _ _ ha, strings.splitChars_of_not_mem _ _ hb]
        rfl
      rw [hsplit]
      rfl

/-- C4, witness: a store holding `482913_1700000000` under the key yields the
code `482913`; holding `482913` (no delimiter) or `48_29_13` (two of them) it
yields the format error and the empty code. -/
theorem C4_fail_closed_parsing_witness :
    GetCodeCache (RDB.Set (Store.empty 0) "user@example.com" "482913_1700000000"
        (10 * time.Minute)).2 "user@example.com" = ("482913", none) ∧
    GetCodeCache (RDB.Set (Store.empty 0) "user@example.com" "482913"
        (10 * time.Minute)).2 "user@example.com"
      = ("", some (NewErrNo InternalRedisErrorCode "验证码格式错误")) ∧
    GetCodeCache (RDB.Set (Store.empty 0) "user@example.com" "48_29_13"
        (10 * time.Minute)).2 "user@example.com"
      = ("", some (NewErrNo InternalRedisErrorCode "验证码格式错误")) := by
  refine ⟨?_, ?_, ?_⟩
  · obtain ⟨code, rest, -, -, -, hcode, hres⟩ :=
      (C4_fail_closed_parsing (RDB.Set (Store.empty 0) "user@example.com" "482913_1700000000"
        (10 * time.Minute)).2 "user@example.com" "482913_1700000000" (by decide)).2 (by decide)
    rw [hres, hcode]
    decide
  · exact (C4_fail_closed_parsing (RDB.Set (Store.empty 0) "user@example.com" "482913"
      (10 * time.Minute)).2 "user@example.com" "482913" (by decide)).1 (by decide)
  · exact (C4_fail_closed_parsing (RDB.Set (Store.empty 0) "user@example.com" "48_29_13"
      (10 * time.Minute)).2 "user@example.com" "48_29_13" (by decide)).1 (by decide)

/-- C5, the code at the failing input: `GetCodeCache` reports one and the same
failure for a key that was never issued, for a key removed by
`DeleteCodeCache`, and for a store that cannot be reached or timed out, while
the sibling `IsBlacklistToken` tells an absent key from a failing store. -/
theorem C5_not_found_reported_as_store_error :
    GetCodeCache (Store.empty 0) "user@example.com"
      = ("", some (NewErrNo InternalRedisErrorCode "获取验证码缓存失败")) ∧
    GetCodeCache (DeleteCodeCache (PutCodeToCache (Store.empty 0) "user@example.com"
        "482913").2 "user@example.com").2 "user@example.com"
      = ("", some (NewErrNo InternalRedisErrorCode "获取验证码缓存失败")) ∧
    GetCodeCache ((Store.empty 0).withFault (some "i/o timeout")) "user@example.com"
      = ("", some (NewErrNo InternalRedisErrorCode "获取验证码缓存失败")) ∧
    IsBlacklistToken (Store.empty 0) "user@example.com"
      ≠ IsBlacklistToken ((Store.empty 0).withFault (some "i/o timeout")) "user@example.com" := by
  decide

end redis

namespace service

open errno redis

/-- C6 (amended): `ResetPassword`, `VerifyEmail` and `UpdateEmail` leave the
store exactly as they found it, whatever they return; so on every request on
which one of them returns success, `GetCodeCache` for the e-mail it checked
still returns, right afterwards, the code that was just accepted. -/
theorem C6_workflows_keep_the_code (env : Collab) (s : Store) :
    (∀ req : ResetPasswordReq, (ResetPassword env s req).2 = s ∧
      ((ResetPassword env s req).1 = none →
        GetCodeCache (ResetPassword env s req).2 req.Email = (req.Code, none))) ∧
    (∀ req : VerifyEmailReq, (VerifyEmail env s req).2 = s ∧
      ((VerifyEmail env s req).1 = none →
        GetCodeCache (VerifyEmail env s req).2 req.Email = (req.Code, none))) ∧
    (∀ req : UpdateEmailReq, (UpdateEmail env s req).2 = s ∧
      ((UpdateEmail env s req).1 = none →
        GetCodeCache (UpdateEmail env s req).2 req.NewEmail = (req.Code, none))) := by
  refine ⟨?_, ?_, ?_⟩
  · intro req
    have hs : (ResetPassword env s req).2 = s := by
      unfold ResetPassword
      repeat' split
      all_goals rfl
    refine ⟨hs, ?_⟩
    rw [hs]
    intro hok
    unfold ResetPassword at hok
    repeat' split at hok
    all_goals simp_all
  · intro req
    have hs : (VerifyEmail env s req).2 = s := by
      unfold VerifyEmail
      dsimp only
      repeat' split
      all_goals rfl
    refine ⟨hs, ?_⟩
    rw [hs]
    intro hok
    unfold VerifyEmail at hok
    dsimp only at hok
    repeat' split at hok
    all_goals simp_all
  · intro req
    have hs : (UpdateEmail env s req).2 = s := by
      unfold UpdateEmail
      dsimp only
      repeat' split
      all_goals rfl
    refine ⟨hs, ?_⟩
    rw [hs]
    intro hok
    unfold UpdateEmail at hok
    dsimp only at hok
    repeat' split at hok
    all_goals simp_all

/-- C6, witness: with the code `482913` pending for `user@example.com`, a
successful `ResetPassword` with that code leaves it readable. -/
theorem C6_workflows_keep_the_code_witness :
    (ResetPassword sampleCollab
      (PutCodeToCache (Store.empty 1700000000000000000) "user@example.com" "482913").2
      (ResetPasswordReq.mk "user@example.com" "482913" "n3w-Passw0rd")).1 = none ∧
    GetCodeCache (ResetPassword sampleCollab
      (PutCodeToCache (Store.empty 1700000000000000000) "user@example.com" "482913").2
      (ResetPasswordReq.mk "user@example.com" "482913" "n3w-Passw0rd")).2 "user@example.com"
      = ("482913", none) :=
  ⟨by decide,
   ((C6_workflows_keep_the_code sampleCollab
      (PutCodeToCache (Store.empty 1700000000000000000) "user@example.com" "482913").2).1
      (ResetPasswordReq.mk "user@example.com" "482913" "n3w-Passw0rd")).2 (by decide)⟩

/-- C6, counterexample to the claim as stated: with the code `482913` pending
for `user@example.com`, `ResetPassword` succeeds, the lookup right afterwards
still returns `482913`, and a second `ResetPassword` with the same code
succeeds again; `VerifyEmail` and `UpdateEmail` leave the code in place just
the same. -/
theorem C6_counterexample_code_accepted_twice :
    (ResetPassword sampleCollab
      (PutCodeToCache (Store.empty 1700000000000000000) "user@example.com" "482913").2
      (ResetPasswordReq.mk "user@example.com" "482913" "n3w-Passw0rd")).1 = none ∧
    GetCodeCache (ResetPassword sampleCollab
      (PutCodeToCache (Store.empty 1700000000000000000) "user@example.com" "482913").2
      (ResetPasswordReq.mk "user@example.com" "482913" "n3w-Passw0rd")).2 "user@example.com"
      = ("482913", none) ∧
    (ResetPassword sampleCollab
      (ResetPassword sampleCollab
        (PutCodeToCache (Store.empty 1700000000000000000) "user@example.com" "482913").2
        (ResetPasswordReq.mk "user@example.com" "482913" "n3w-Passw0rd")).2
      (ResetPasswordReq.mk "user@example.com" "482913" "an0ther-Passw0rd")).1 = none ∧
    (VerifyEmail sampleCollab
      (PutCodeToCache (Store.empty 1700000000000000000) "user@example.com" "482913").2
      (VerifyEmailReq.mk "user@example.com" "482913")).1 = none ∧
    GetCodeCache (VerifyEmail sampleCollab
      (PutCodeToCache (Store.empty 1700000000000000000) "user@example.com" "482913").2
      (VerifyEmailReq.mk "user@example.com" "482913")).2 "user@example.com"
      = ("482913", none) ∧
    (UpdateEmail sampleCollab
      (PutCodeToCache (Store.empty 1700000000000000000) "user@example.com" "482913").2
      (UpdateEmailReq.mk "user@example.com" "482913")).1 = none ∧
    GetCodeCache (UpdateEmail sampleCollab
      (PutCodeToCache (Store.empty 1700000000000000000) "user@example.com" "482913").2
      (UpdateEmailReq.mk "user@example.com" "482913")).2 "user@example.com"
      = ("482913", none) := by
  decide

end service

namespace redis

open errno

/-- C7 (amended): the rate-limit key `email_rate_limit:<source>` and the
profile key `user:<user id>` differ for all identifiers, while the
verification-code key and the token key are the bare recipient and the bare
token.  An operation of one component leaves the entries of another alone
whenever the key it writes differs from the key read: every read
(`GetCodeCache`, `IsBlacklistToken`, `GetUserInfoCache`,
`CheckEmailRateLimit`) gives the same result after a write to another key as
before it.  So `SetEmailRateLimit` never changes `GetUserInfoCache`,
`SetUserInfoCache` never changes `CheckEmailRateLimit`, and
`PutCodeToCache k c` leaves `IsBlacklistToken t` unchanged whenever `k ≠ t`. -/
theorem C7_namespaced_keys {User : Type} (json : Json User) :
    (∀ ip userId : String, "email_rate_limit:" ++ ip ≠ "user:" ++ userId) ∧
    (∀ (s : Store) (op : Op User) (key k : String), op.writtenKey = some key → k ≠ key →
      GetCodeCache (Op.apply json s op) k = GetCodeCache s k ∧
      IsBlacklistToken (Op.apply json s op) k = IsBlacklistToken s k) ∧
    (∀ (s : Store) (op : Op User) (key userId : String), op.writtenKey = some key →
      "user:" ++ userId ≠ key →
      GetUserInfoCache json (Op.apply json s op) userId = GetUserInfoCache json s userId) ∧
    (∀ (s : Store) (op : Op User) (key ip : String), op.writtenKey = some key →
      "email_rate_limit:" ++ ip ≠ key →
      CheckEmailRateLimit (Op.apply json s op) ip = CheckEmailRateLimit s ip) ∧
    (∀ (s : Store) (ip userId : String),
      GetUserInfoCache json (SetEmailRateLimit s ip).2 userId = GetUserInfoCache json s userId) ∧
    (∀ (s : Store) (userId : String) (data : Option User) (expiration : time.Duration)
      (ip : String),
      CheckEmailRateLimit (SetUserInfoCache json s userId data expiration).2 ip
        = CheckEmailRateLimit s ip) ∧
    (∀ (s : Store) (k c t : String), k ≠ t →
      IsBlacklistToken (PutCodeToCache s k c).2 t = IsBlacklistToken s t) := by
  have hget : ∀ (s : Store) (op : Op User) (key k : String), op.writtenKey = some key →
      k ≠ key → RDB.Get (Op.apply json s op) k = RDB.Get s k := by
    intro s op key k hop hk
    obtain ⟨hf, hc, hd⟩ := Op.apply_frame json s op key k hop hk
    exact RDB.Get_congr _ _ _ hf hc hd
  have hcode : ∀ (s : Store) (op : Op User) (key k : String), op.writtenKey = some key →
      k ≠ key → GetCodeCache (Op.apply json s op) k = GetCodeCache s k ∧
      IsBlacklistToken (Op.apply json s op) k = IsBlacklistToken s k := by
    intro s op key k hop hk
    exact ⟨GetCodeCache_congr _ _ _ (hget s op key k hop hk),
      IsBlacklistToken_congr _ _ _ (hget s op key k hop hk)⟩
  have huser : ∀ (s : Store) (op : Op User) (key userId : String), op.writtenKey = some key →
      "user:" ++ userId ≠ key →
      GetUserInfoCache json (Op.apply json s op) userId = GetUserInfoCache json s userId := by
    intro s op key userId hop hk
    exact GetUserInfoCache_congr json _ _ _ (hget s op key _ hop hk)
  have hrate : ∀ (s : Store) (op : Op User) (key ip : String), op.writtenKey = some key →
      "email_rate_limit:" ++ ip ≠ key →
      CheckEmailRateLimit (Op.apply json s op) ip = CheckEmailRateLimit s ip := by
    intro s op key ip hop hk
    obtain ⟨-, hc, hd⟩ := Op.apply_frame json s op key _ hop hk
    exact IsKeyExist_congr _ _ _ hc hd
  refine ⟨rate_limit_key_ne_user_key, hcode, huser, hrate, ?_, ?_, ?_⟩
  · intro s ip userId
    exact huser s (Op.SetEmailRateLimit ip) _ userId rfl
      (fun h => rate_limit_key_ne_user_key ip userId h.symm)
  · intro s userId data expiration ip
    exact hrate s (Op.SetUserInfoCache userId data expiration) _ ip rfl
      (rate_limit_key_ne_user_key ip userId)
  · intro s k c t hk
    exact (hcode s (Op.PutCodeToCache k c) k t rfl (fun h => hk h.symm)).2

/-- C7, witness: revoking `tok_abc` and then issuing a code for
`user@example.com` leaves `tok_abc` revoked. -/
theorem C7_namespaced_keys_witness :
    IsBlacklistToken (PutCodeToCache (SetBlacklistToken (Store.empty 0) "tok_abc").2
      "user@example.com" "482913").2 "tok_abc" = (true, none) := by
  have h := (C7_namespaced_keys sampleJson).2.2.2.2.2.2
    (SetBlacklistToken (Store.empty 0) "tok_abc").2 "user@example.com" "482913" "tok_abc"
    (by decide)
  rw [h]
  decide

/-- C7, counterexample to the claim as stated: the code key of the recipient
`tok_abc` is the token key of the token `tok_abc`.  After
`SetBlacklistToken "tok_abc"` the token is revoked; `PutCodeToCache "tok_abc"`
then overwrites the mark, and the token is no longer reported as revoked. -/
theorem C7_counterexample_code_key_is_token_key :
    IsBlacklistToken (SetBlacklistToken (Store.empty 0) "tok_abc").2 "tok_abc"
      = (true, none) ∧
    IsBlacklistToken (PutCodeToCache (SetBlacklistToken (Store.empty 0) "tok_abc").2
      "tok_abc" "482913").2 "tok_abc" = (false, none) := by
  decide

/-- C8: the rate limiter, per source.  `CheckEmailRateLimit ip` is false in
the empty store; after a successful `SetEmailRateLimit ip` it is true at once
and for as long as less than one minute has passed, and false once more than
the minute has passed; and `SetEmailRateLimit ip` leaves `CheckEmailRateLimit` of every
other source as it was. -/
theorem C8_rate_limiter :
    (∀ (now : Int) (ip : String), CheckEmailRateLimit (Store.empty now) ip = false) ∧
    (∀ (s : Store) (ip : String) (d : Nat), (SetEmailRateLimit s ip).1 = none →
      (d : Int) < time.Minute →
      CheckEmailRateLimit ((SetEmailRateLimit s ip).2.advance d) ip = true) ∧
    (∀ (s : Store) (ip : String), (SetEmailRateLimit s ip).1 = none →
      CheckEmailRateLimit (SetEmailRateLimit s ip).2 ip = true) ∧
    (∀ (s : Store) (ip : String) (d : Nat), (SetEmailRateLimit s ip).1 = none →
      time.Minute < (d : Int) →
      CheckEmailRateLimit ((SetEmailRateLimit s ip).2.advance d) ip = false) ∧
    (∀ (s : Store) (ip other : String), other ≠ ip →
      CheckEmailRateLimit (SetEmailRateLimit s ip).2 other = CheckEmailRateLimit s other) := by
  have hwin : ∀ (s : Store) (ip : String) (d : Nat), (SetEmailRateLimit s ip).1 = none →
      (d : Int) < time.Minute →
      CheckEmailRateLimit ((SetEmailRateLimit s ip).2.advance d) ip = true := by
    intro s ip d hok hd
    have hreach : s.fault = none := (SetEmailRateLimit_ok_iff s ip).mp hok
    rw [SetEmailRateLimit_snd, RDB.Set_of_reachable _ _ _ _ hreach,
      RDB.expiry_pos _ _ _ (by decide)]
    simp [CheckEmailRateLimit, IsKeyExist, Store.lookup, Store.advance, Entry.live,
      le_of_lt hd]
  refine ⟨?_, hwin, ?_, ?_, ?_⟩
  · intro now ip
    simp [CheckEmailRateLimit, IsKeyExist, Store.lookup, Store.empty]
  · intro s ip hok
    have h := hwin s ip 0 hok (by decide)
    have hadv : (SetEmailRateLimit s ip).2.advance 0 = (SetEmailRateLimit s ip).2 := by
      simp [Store.advance]
    rw [hadv] at h
    exact h
  · intro s ip d hok hd
    have hreach : s.fault = none := (SetEmailRateLimit_ok_iff s ip).mp hok
    rw [SetEmailRateLimit_snd, RDB.Set_of_reachable _ _ _ _ hreach,
      RDB.expiry_pos _ _ _ (by decide)]
    simp [CheckEmailRateLimit, IsKeyExist, Store.lookup, Store.advance, Entry.live, hd]
  · intro s ip other hne
    have hk : "email_rate_limit:" ++ other ≠ "email_rate_limit:" ++ ip :=
      fun h => hne ((append_left_cancel _ _ _).mp h)
    rw [SetEmailRateLimit_snd]
    exact IsKeyExist_congr _ _ _ (RDB.Set_clock _ _ _ _) (RDB.Set_data_of_ne _ _ _ _ _ hk)

/-- C8, witness (scenario C of the spec): after marking `203.0.113.5`, that
source is limited at once and still 59.999999999 s later, is free again
60.000000001 s later, and `203.0.113.9` is not limited. -/
theorem C8_rate_limiter_witness :
    CheckEmailRateLimit (SetEmailRateLimit (Store.empty 0) "203.0.113.5").2 "203.0.113.5"
      = true ∧
    CheckEmailRateLimit ((SetEmailRateLimit (Store.empty 0) "203.0.113.5").2.advance
      59999999999) "203.0.113.5" = true ∧
    CheckEmailRateLimit ((SetEmailRateLimit (Store.empty 0) "203.0.113.5").2.advance
      60000000001) "203.0.113.5" = false ∧
    CheckEmailRateLimit (SetEmailRateLimit (Store.empty 0) "203.0.113.5").2 "203.0.113.9"
      = false :=
  ⟨C8_rate_limiter.2.2.1 (Store.empty 0) "203.0.113.5" (by decide),
   C8_rate_limiter.2.1 (Store.empty 0) "203.0.113.5" 59999999999 (by decide) (by decide),
   C8_rate_limiter.2.2.2.1 (Store.empty 0) "203.0.113.5" 60000000001 (by decide) (by decide),
   (C8_rate_limiter.2.2.2.2 (Store.empty 0) "203.0.113.5" "203.0.113.9" (by decide)).trans
     (C8_rate_limiter.1 0 "203.0.113.9")⟩

/-- C9 (amended): a profile-cache miss is not an error.  For every user id, in
every state reached from the empty store by a history of cache operations
none of which writes the key `user:<user id>` (no `SetUserInfoCache` for that
user, and no code or token operation on an identifier that is itself that
key), and in every reachable store with no live entry under that key,
`GetUserInfoCache` returns `(nil, nil)`.  It returns a non-nil error only when
the store fails with an error other than not-found, or when the value under
the key cannot be deserialised. -/
theorem C9_profile_cache_miss {User : Type} (json : Json User) :
    (∀ (now : Int) (userId : String) (ops : List (Op User)),
      (∀ op ∈ ops, op.writtenKey ≠ some ("user:" ++ userId)) →
      GetUserInfoCache json (run json (Store.empty now) ops) userId = (none, none)) ∧
    (∀ (s : Store) (userId : String), s.fault = none →
      s.lookup ("user:" ++ userId) = none →
      GetUserInfoCache json s userId = (none, none)) ∧
    (∀ (s : Store) (userId : String) (err : ErrNo),
      (GetUserInfoCache json s userId).2 = some err →
      (∃ v e, RDB.Get s ("user:" ++ userId) = (v, some e) ∧ e ≠ "redis: nil") ∨
      (∃ v e, RDB.Get s ("user:" ++ userId) = (v, none) ∧ json.Unmarshal v = .error e)) := by
  refine ⟨?_, ?_, ?_⟩
  · intro now userId ops hops
    have h := run_keeps_absent json ("user:" ++ userId) ops (Store.empty now) rfl rfl hops
    exact GetUserInfoCache_of_absent json _ _ h.1 (lookup_of_data_none _ _ h.2)
  · intro s userId hf hl
    exact GetUserInfoCache_of_absent json s userId hf hl
  · intro s userId err herr
    unfold GetUserInfoCache at herr
    dsimp only at herr
    rcases hget : RDB.Get s ("user:" ++ userId) with ⟨v, e⟩
    rw [hget] at herr
    cases e with
    | some e =>
      left
      refine ⟨v, e, rfl, ?_⟩
      intro he
      simp [he] at herr
    | none =>
      right
      cases hu : json.Unmarshal v with
      | error e => exact ⟨v, e, rfl, hu⟩
      | ok user => simp [hu] at herr

/-- C9, witness: after a history of code, token and rate-limit operations on
other keys, the profile of user `42` is absent, without error. -/
theorem C9_profile_cache_miss_witness :
    GetUserInfoCache sampleJson (run sampleJson (Store.empty 0)
      [Op.PutCodeToCache "user@example.com" "482913", Op.SetBlacklistToken "tok_abc",
       Op.SetUserInfoCache "7" (some 7) (30 * time.Minute), Op.advance 5,
       Op.SetEmailRateLimit "203.0.113.5"]) "42" = (none, none) :=
  (C9_profile_cache_miss sampleJson).1 0 "42" _ (by decide)

/-- C9, counterexample to the claim as stated: `SetUserInfoCache` is never
called, yet after `SetBlacklistToken "user:42"` the key of user `42` holds the
revocation mark, and `GetUserInfoCache "42"` returns a parse error instead of
`(nil, nil)`. -/
theorem C9_counterexample_token_under_profile_key :
    GetUserInfoCache sampleJson
      (run sampleJson (Store.empty 0) [Op.SetBlacklistToken "user:42"]) "42"
      = (none, some (NewErrNo InternalRedisErrorCode
          "解析用户信息缓存失败: invalid character 'b' looking for beginning of value")) ∧
    GetUserInfoCache sampleJson
      (run sampleJson (Store.empty 0) [Op.SetBlacklistToken "user:42"]) "42"
      ≠ (none, none) := by
  decide

/-- C10: the expirations of the writes are fixed and finite.  For all
arguments, the store `PutCodeToCache` leaves is the one a single `RDB.Set`
with an expiration of 600 s leaves, `SetBlacklistToken` one with 259200 s
(72 hours), `SetEmailRateLimit` one with 60 s; and when the write succeeds the
entry under the key expires exactly that long after the clock of the write,
so it is never an entry without expiry. -/
theorem C10_fixed_expirations (s : Store) :
    (∀ key code : String,
      (PutCodeToCache s key code).2
        = (RDB.Set s key (code ++ "_" ++ toString (time.Unix s.clock)) (600 * time.Second)).2 ∧
      ((PutCodeToCache s key code).1 = none →
        ((PutCodeToCache s key code).2.data key).map Entry.expireAt
          = some (some (s.clock + 600 * time.Second)))) ∧
    (∀ token : String,
      (SetBlacklistToken s token).2
        = (RDB.Set s token "blacklisted" (259200 * time.Second)).2 ∧
      ((SetBlacklistToken s token).1 = none →
        ((SetBlacklistToken s token).2.data token).map Entry.expireAt
          = some (some (s.clock + 259200 * time.Second)))) ∧
    (∀ ip : String,
      (SetEmailRateLimit s ip).2
        = (RDB.Set s ("email_rate_limit:" ++ ip) "1" (60 * time.Second)).2 ∧
      ((SetEmailRateLimit s ip).1 = none →
        ((SetEmailRateLimit s ip).2.data ("email_rate_limit:" ++ ip)).map Entry.expireAt
          = some (some (s.clock + 60 * time.Second)))) := by
  have hput : (10 * time.Minute : Int) = 600 * time.Second := by decide
  have hblack : (time.Hour * 72 : Int) = 259200 * time.Second := by decide
  have hrate : (1 * time.Minute : Int) = 60 * time.Second := by decide
  have hset : ∀ (key value : String) (expiration : Int), s.fault = none → 0 < expiration →
      ((RDB.Set s key value expiration).2.data key).map Entry.expireAt
        = some (some (s.clock + expiration)) := by
    intro key value expiration hf hpos
    rw [RDB.Set_of_reachable _ _ _ _ hf, RDB.expiry_pos _ _ _ hpos]
    simp
  refine ⟨?_, ?_, ?_⟩
  · intro key code
    have hs := PutCodeToCache_snd s key code
    rw [hput] at hs
    refine ⟨hs, fun hok => ?_⟩
    rw [hs]
    exact hset _ _ _ ((PutCodeToCache_ok_iff s key code).mp hok) (by decide)
  · intro token
    have hs := SetBlacklistToken_snd s token
    rw [hblack] at hs
    refine ⟨hs, fun hok => ?_⟩
    rw [hs]
    exact hset _ _ _ ((SetBlacklistToken_ok_iff s token).mp hok) (by decide)
  · intro ip
    have hs := SetEmailRateLimit_snd s ip
    rw [hrate] at hs
    refine ⟨hs, fun hok => ?_⟩
    rw [hs]
    exact hset _ _ _ ((SetEmailRateLimit_ok_iff s ip).mp hok) (by decide)

/-- C10, witness: on a store whose clock reads 1000 ns, the three writes leave
entries that expire 600 s, 259200 s and 60 s later, counted in nanoseconds. -/
theorem C10_fixed_expirations_witness :
    ((PutCodeToCache (Store.empty 1000) "user@example.com" "482913").2.data
      "user@example.com").map Entry.expireAt = some (some 600000001000) ∧
    ((SetBlacklistToken (Store.empty 1000) "tok_abc").2.data "tok_abc").map Entry.expireAt
      = some (some 259200000001000) ∧
    ((SetEmailRateLimit (Store.empty 1000) "203.0.113.5").2.data
      "email_rate_limit:203.0.113.5").map Entry.expireAt = some (some 60000001000) :=
  ⟨((C10_fixed_expirations (Store.empty 1000)).1 "user@example.com" "482913").2 (by decide),
   ((C10_fixed_expirations (Store.empty 1000)).2.1 "tok_abc").2 (by decide),
   ((C10_fixed_expirations (Store.empty 1000)).2.2 "203.0.113.5").2 (by decide)⟩

end redis

namespace unicode

/-- The sample folding table folds no rune outside ASCII with a letter of
`Bearer`. -/
theorem asciiFoldTable_bearerLetter (lo hi : Char) (hlo : strings.bearerLetter lo)
    (_hhi : 0x80 ≤ hi.toNat) : asciiFoldTable lo hi = false := by
  rcases hlo with h | h | h | h <;> subst h <;> simp [asciiFoldTable]

end unicode

namespace service

open errno redis

/-- C11: token extraction on logout, for every value `h` of the header
`Authorization` and every store.  `LoginOut` returns success and leaves the
store as it is when `h` is empty, when `h` holds nothing but white space, and
when `h` has the single field `Bearer` (under case folding).  Otherwise its
result and the store it leaves are those of one call of `SetBlacklistToken`:
on the second field of `h` when the first field is `Bearer` under case
folding, on the first field in every other case.  So there is at most one
call, and its token is a field of `h`: non-empty and free of white space.
With folding tables in which no rune outside ASCII folds with a letter of
`Bearer`, being `Bearer` under case folding means having the lower case form
`bearer`. -/
theorem C11_logout_token_extraction (fold : unicode.FoldTable) (s : Store) (h : String) :
    (h = "" → LoginOut fold s h = (none, s)) ∧
    ((∀ c ∈ h.data, unicode.IsSpace c = true) → LoginOut fold s h = (none, s)) ∧
    (∀ f : String, strings.Fields h = [f] → strings.EqualFold fold f "Bearer" = true →
      LoginOut fold s h = (none, s)) ∧
    (∀ (f token : String) (rest : List String), strings.Fields h = f :: token :: rest →
      strings.EqualFold fold f "Bearer" = true →
      LoginOut fold s h = SetBlacklistToken s token) ∧
    (∀ (f : String) (rest : List String), strings.Fields h = f :: rest →
      strings.EqualFold fold f "Bearer" = false →
      LoginOut fold s h = SetBlacklistToken s f) ∧
    (LoginOut fold s h = (none, s) ∨
      ∃ token : String, token ∈ strings.Fields h ∧ token ≠ "" ∧
        (∀ c ∈ token.data, unicode.IsSpace c = false) ∧
        LoginOut fold s h = SetBlacklistToken s token) ∧
    ((∀ lo hi : Char, strings.bearerLetter lo → 0x80 ≤ hi.toNat → fold lo hi = false) →
      ∀ f : String, strings.EqualFold fold f "Bearer" = true ↔
        f.data.map Char.toLower = "bearer".data) := by
  refine ⟨?_, ?_, ?_, ?_, ?_, ?_, ?_⟩
  · intro he
    simp [LoginOut, he]
  · intro hsp
    exact LoginOut_of_no_field fold s h ((strings.Fields_eq_nil_iff h).mpr hsp)
  · intro f hf hb
    exact LoginOut_bearer_alone fold s h f hf hb
  · intro f token rest hf hb
    exact LoginOut_bearer_token fold s h f token rest hf hb
  · intro f rest hf hb
    exact LoginOut_direct_token fold s h f rest hf hb
  · cases hf : strings.Fields h with
    | nil => exact Or.inl (LoginOut_of_no_field fold s h hf)
    | cons f rest =>
      cases hb : strings.EqualFold fold f "Bearer" with
      | false =>
        right
        have hmem : f ∈ strings.Fields h := by
          rw [hf]
          exact List.mem_cons_self _ _
        exact ⟨f, List.mem_cons_self _ _, (strings.Fields_mem h f hmem).1,
          (strings.Fields_mem h f hmem).2, LoginOut_direct_token fold s h f rest hf hb⟩
      | true =>
        cases rest with
        | nil => exact Or.inl (LoginOut_bearer_alone fold s h f hf hb)
        | cons token rest =>
          right
          have hmem : token ∈ strings.Fields h := by
            rw [hf]
            exact List.mem_cons_of_mem _ (List.mem_cons_self _ _)
          exact ⟨token, List.mem_cons_of_mem _ (List.mem_cons_self _ _),
            (strings.Fields_mem h token hmem).1, (strings.Fields_mem h token hmem).2,
            LoginOut_bearer_token fold s h f token rest hf hb⟩
  · intro hfold f
    exact strings.EqualFold_Bearer_iff fold hfold f

/-- C11, witness: on the empty store, the headers `""`, white space only and
`bEaReR` revoke nothing; `bearer  tok_abc extra` revokes the second field
`tok_abc`, `tok_abc extra` the first field `tok_abc`, and after either the
token is reported as revoked. -/
theorem C11_logout_token_extraction_witness :
    LoginOut unicode.asciiFoldTable (Store.empty 0) "" = (none, Store.empty 0) ∧
    LoginOut unicode.asciiFoldTable (Store.empty 0) " \t " = (none, Store.empty 0) ∧
    LoginOut unicode.asciiFoldTable (Store.empty 0) " bEaReR " = (none, Store.empty 0) ∧
    LoginOut unicode.asciiFoldTable (Store.empty 0) "bearer  tok_abc extra"
      = SetBlacklistToken (Store.empty 0) "tok_abc" ∧
    LoginOut unicode.asciiFoldTable (Store.empty 0) "tok_abc extra"
      = SetBlacklistToken (Store.empty 0) "tok_abc" ∧
    IsBlacklistToken (LoginOut unicode.asciiFoldTable (Store.empty 0)
      "bearer  tok_abc extra").2 "tok_abc" = (true, none) ∧
    (strings.EqualFold unicode.asciiFoldTable "bEaReR" "Bearer" = true ↔
      "bEaReR".data.map Char.toLower = "bearer".data) :=
  ⟨(C11_logout_token_extraction unicode.asciiFoldTable (Store.empty 0) "").1 rfl,
   (C11_logout_token_extraction unicode.asciiFoldTable (Store.empty 0) " \t ").2.1
     (by decide),
   (C11_logout_token_extraction unicode.asciiFoldTable (Store.empty 0) " bEaReR ").2.2.1
     "bEaReR" (by decide) (by decide),
   (C11_logout_token_extraction unicode.asciiFoldTable (Store.empty 0)
     "bearer  tok_abc extra").2.2.2.1 "bearer" "tok_abc" ["extra"] (by decide) (by decide),
   (C11_logout_token_extraction unicode.asciiFoldTable (Store.empty 0)
     "tok_abc extra").2.2.2.2.1 "tok_abc" ["extra"] (by decide) (by decide),
   by decide,
   (C11_logout_token_extraction unicode.asciiFoldTable (Store.empty 0) "").2.2.2.2.2.2
     unicode.asciiFoldTable_bearerLetter "bEaReR"⟩

end service
